import Mathlib

/-!
Verification of the LocalMemory ingestion-and-retrieval pipeline.

Text is modelled as `List Char`; the Python functions of
`backend/app/utils/chunking.py`, `backend/app/utils/embeddings.py`,
`backend/app/services/ingestion.py`, `backend/app/services/retrieval.py`
and `backend/app/routers/documents.py` are embedded shallowly below.
External collaborators (file system, text extractors, the Ollama embedding
client, the Chroma vector index) are modelled as explicit oracle
parameters; SHA-256 is implemented in full.
-/

namespace LocalMemory

abbrev Txt := List Char

/-- ASCII whitespace as matched by Python's `str.strip`, `str.split` and
the regex class used in `chunking.py`. -/
def isSpc (c : Char) : Bool :=
  c = ' ' || c = '\t' || c = '\n' || c = '\r' || c = '\x0b' || c = '\x0c'

/-- Python `str.strip()` (ASCII whitespace). -/
def strip (l : Txt) : Txt :=
  ((l.dropWhile isSpc).reverse.dropWhile isSpc).reverse

/-- Space or tab, the class `[ \t]` of `clean_text`. -/
def isBlank (c : Char) : Bool := c = ' ' || c = '\t'

/-- Helper for `re.sub(r'\n\x7b3,\x7d', '\n\n', text)`: a run of `k`
newlines is replaced by two when `k ≥ 3`. -/
def emitNL (k : Nat) : Txt := List.replicate (if k ≥ 3 then 2 else k) '\n'

def collapseNLAux : List Char → Nat → Txt
  | [], k => emitNL k
  | c :: rest, k =>
    if c = '\n' then collapseNLAux rest (k + 1)
    else emitNL k ++ c :: collapseNLAux rest 0

/-- Model of `re.sub(r'\n\x7b3,\x7d', '\n\n', text)` in `clean_text`. -/
def collapseNewlines (l : Txt) : Txt := collapseNLAux l 0

def collapseSpAux : List Char → Bool → Txt
  | [], _ => []
  | c :: rest, inRun =>
    if isBlank c then
      (if inRun then collapseSpAux rest true else ' ' :: collapseSpAux rest true)
    else c :: collapseSpAux rest false

/-- Model of `re.sub(r'[ \t]+', ' ', text)` in `clean_text`. -/
def collapseSpaces (l : Txt) : Txt := collapseSpAux l false

/-- Model of `clean_text` of `chunking.py`: drop null bytes, collapse 3+ newlines
to two, collapse space/tab runs to one space, strip. -/
def cleanText (l : Txt) : Txt :=
  strip (collapseSpaces (collapseNewlines (l.filter (fun c => c ≠ '\x00'))))

/-- Sentence-ending punctuation of the regex `(?<=[.!?])\s+`. -/
def isPunct (c : Char) : Bool := c = '.' || c = '!' || c = '?'

/-- Does the (reversed) accumulated fragment end in `.`, `!` or `?`. -/
def endsPunct : List Char → Bool
  | [] => false
  | p :: _ => isPunct p

/-- Scanner for `re.split(r'(?<=[.!?])\s+', text)`: `cur` is the current
fragment reversed; `skip` is true while the maximal whitespace run after a
split point is being consumed. -/
def sentAux (skip : Bool) (cur : List Char) : List Char → List Txt
  | [] => [cur.reverse]
  | c :: rest =>
    if skip && isSpc c then sentAux true cur rest
    else if endsPunct cur && isSpc c then
      cur.reverse :: sentAux true [] rest
    else sentAux false (c :: cur) rest

/-- Model of `split_into_sentences` of `chunking.py`: regex split on sentence
boundaries, then strip each fragment and keep only non-empty ones. -/
def splitIntoSentences (t : Txt) : List Txt :=
  ((sentAux false [] t).map strip).filter (fun s => ¬ s.isEmpty)

/-- Scanner for Python `str.split()` (split on whitespace runs, dropping
empty tokens); `cur` is the current word reversed. -/
def wordsAux (cur : List Char) : List Char → List Txt
  | [] => if cur.isEmpty then [] else [cur.reverse]
  | c :: rest =>
    if isSpc c then
      (if cur.isEmpty then wordsAux [] rest else cur.reverse :: wordsAux [] rest)
    else wordsAux (c :: cur) rest

def wordsOf (l : Txt) : List Txt := wordsAux [] l

/-- Model of `" ".join(current_chunk)`. -/
def joinSp : List Txt → Txt
  | [] => []
  | [s] => s
  | s :: rest => s ++ ' ' :: joinSp rest

/-- One element of the list returned by `chunk_text`. -/
structure Chunk where
  content : Txt
  index : Nat
  word_count : Nat
deriving Repr, DecidableEq

/-- Build the dict appended by `chunk_text` when flushing a buffer. -/
def mkChunk (cur : List Txt) (idx : Nat) : Chunk :=
  ⟨joinSp cur, idx, (wordsOf (joinSp cur)).length⟩

def sumLens (l : List Txt) : Nat := (l.map List.length).sum

/-- The backward walk of the overlap-seeding loop of `chunk_text`,
applied to the reversed buffer: keep sentences while the accumulated
length stays within `overlap`, stop at the first that does not fit. -/
def ovlRev (overlap : Nat) : List Txt → Nat → List Txt
  | [], _ => []
  | s :: rest, acc =>
    if acc + s.length ≤ overlap then s :: ovlRev overlap rest (acc + s.length)
    else []

/-- The `overlap_sentences` computed by `chunk_text` when flushing a full
buffer: a suffix of the just-flushed buffer, in original order. -/
def overlapSuffix (overlap : Nat) (cur : List Txt) : List Txt :=
  (ovlRev overlap cur.reverse 0).reverse

/-- Start offsets of Python `range(0, len, step)` (`step ≥ 1`). -/
def pieceStarts (len step : Nat) : List Nat :=
  List.range' 0 ((len + step - 1) / step) step

/-- The hard-split windows of an oversized sentence: fixed-size windows
advancing by `step = chunk_size - chunk_overlap`, keeping only those that
are not entirely whitespace (`if piece.strip()`). -/
def hardPieces (s : Txt) (size step : Nat) : List Txt :=
  ((pieceStarts s.length step).map (fun i => (s.drop i).take size)).filter
    (fun p => ¬ (strip p).isEmpty)

/-- Emit one chunk per hard-split window, with consecutive indices. -/
def pieceChunks : List Txt → Nat → List Chunk
  | [], _ => []
  | p :: rest, idx => ⟨p, idx, (wordsOf p).length⟩ :: pieceChunks rest (idx + 1)

/-- The sentence-packing loop of `chunk_text`.  State: remaining
sentences, `cur` = `current_chunk`, `len` = `current_len`,
`idx` = `chunk_index`. -/
def chunkLoop (size overlap : Nat) : List Txt → List Txt → Nat → Nat → List Chunk
  | [], cur, _, idx => if cur = [] then [] else [mkChunk cur idx]
  | s :: rest, cur, len, idx =>
    if s.length > size then
      (if cur = [] then [] else [mkChunk cur idx]) ++
      (let idx' := if cur = [] then idx else idx + 1
       let ps := hardPieces s size (size - overlap)
       pieceChunks ps idx' ++ chunkLoop size overlap rest [] 0 (idx' + ps.length))
    else if len + s.length > size ∧ cur ≠ [] then
      mkChunk cur idx ::
        chunkLoop size overlap rest (overlapSuffix overlap cur ++ [s])
          (sumLens (overlapSuffix overlap cur) + s.length) (idx + 1)
    else
      chunkLoop size overlap rest (cur ++ [s]) (len + s.length) idx

/-- Model of `chunk_text` of `chunking.py`. -/
def chunkText (text : Txt) (size overlap : Nat) : List Chunk :=
  let t := cleanText text
  if strip t = [] then []
  else chunkLoop size overlap (splitIntoSentences t) [] 0 0

/-!
Instrumented chunking

`itemLoop` runs the same sentence-packing loop as `chunkLoop` but records,
for every emitted buffer chunk, which sentences were seeded as overlap
from the just-flushed buffer (`ov`) and which are fresh (`fresh`), and
keeps each oversized sentence whole instead of rendering its windows.
`renderItems` turns that structure back into the chunks `chunk_text`
emits.
-/

inductive CItem where
  | normal (ov fresh : List Txt)
  | hard (s : Txt)
deriving Repr, DecidableEq

/-- Sentences a chunk item accounts for (overlap repetitions excluded). -/
def itemSents : CItem → List Txt
  | .normal _ fresh => fresh
  | .hard s => [s]

/-- The chunks a chunk item renders to, starting at index `idx`. -/
def itemChunks (size overlap : Nat) : CItem → Nat → List Chunk
  | .normal ov fresh, idx => [mkChunk (ov ++ fresh) idx]
  | .hard s, idx => pieceChunks (hardPieces s size (size - overlap)) idx

/-- How many chunks a chunk item renders to. -/
def itemSize (size overlap : Nat) : CItem → Nat
  | .normal _ _ => 1
  | .hard s => (hardPieces s size (size - overlap)).length

def renderItems (size overlap : Nat) : List CItem → Nat → List Chunk
  | [], _ => []
  | it :: rest, idx =>
    itemChunks size overlap it idx ++
      renderItems size overlap rest (idx + itemSize size overlap it)

def itemLoop (size overlap : Nat) : List Txt → List Txt → List Txt → Nat → List CItem
  | [], ov, fresh, _ => if ov ++ fresh = [] then [] else [.normal ov fresh]
  | s :: rest, ov, fresh, len =>
    if s.length > size then
      (if ov ++ fresh = [] then [] else [.normal ov fresh]) ++
        .hard s :: itemLoop size overlap rest [] [] 0
    else if len + s.length > size ∧ ov ++ fresh ≠ [] then
      .normal ov fresh ::
        itemLoop size overlap rest (overlapSuffix overlap (ov ++ fresh)) [s]
          (sumLens (overlapSuffix overlap (ov ++ fresh)) + s.length)
    else itemLoop size overlap rest ov (fresh ++ [s]) (len + s.length)

/-- The instrumented run of `chunk_text` on a text. -/
def chunkItems (text : Txt) (size overlap : Nat) : List CItem :=
  itemLoop size overlap (splitIntoSentences (cleanText text)) [] [] 0

/-- Overlap legitimacy: every non-empty overlap prefix of a buffer chunk
is a suffix of the sentence list of the chunk emitted immediately before
it (the just-flushed buffer); after a hard split there is no buffer to
seed from, so the next buffer chunk starts with no overlap. -/
def OvOK : Option (List Txt) → List CItem → Prop
  | _, [] => True
  | prev, .normal ov fresh :: rest =>
    (ov = [] ∨ ∃ L pre, prev = some L ∧ pre ++ ov = L) ∧
      OvOK (some (ov ++ fresh)) rest
  | _, .hard _ :: rest => OvOK none rest

/-- Size discipline: buffer chunks hold only sentences that fit
`chunk_size`; hard items hold exactly the oversized sentences. -/
def itemFits (size : Nat) : CItem → Prop
  | .normal ov fresh => ∀ s ∈ ov ++ fresh, s.length ≤ size
  | .hard s => s.length > size

/-!
SHA-256

`hashlib.sha256` / the content hashing of `compute_file_hash` and
`generate_chunk_id`, implemented in full over byte lists (bytes and
32-bit words are `Nat` with explicit reduction mod 2^32).
-/

def w32 (x : Nat) : Nat := x % 4294967296

def rotr (n x : Nat) : Nat := w32 ((x >>> n) ||| (x <<< (32 - n)))

def bSig0 (x : Nat) : Nat := rotr 2 x ^^^ rotr 13 x ^^^ rotr 22 x

def bSig1 (x : Nat) : Nat := rotr 6 x ^^^ rotr 11 x ^^^ rotr 25 x

def sSig0 (x : Nat) : Nat := rotr 7 x ^^^ rotr 18 x ^^^ (x >>> 3)

def sSig1 (x : Nat) : Nat := rotr 17 x ^^^ rotr 19 x ^^^ (x >>> 10)

def chFn (e f g : Nat) : Nat := (e &&& f) ^^^ ((e ^^^ 4294967295) &&& g)

def majFn (a b c : Nat) : Nat := Nat.xor (Nat.xor (a &&& b) (a &&& c)) (b &&& c)

def K256 : List Nat :=
  [1116352408, 1899447441, 3049323471, 3921009573, 961987163, 1508970993,
   2453635748, 2870763221, 3624381080, 310598401, 607225278, 1426881987,
   1925078388, 2162078206, 2614888103, 3248222580, 3835390401, 4022224774,
   264347078, 604807628, 770255983, 1249150122, 1555081692, 1996064986,
   2554220882, 2821834349, 2952996808, 3210313671, 3336571891, 3584528711,
   113926993, 338241895, 666307205, 773529912, 1294757372, 1396182291,
   1695183700, 1986661051, 2177026350, 2456956037, 2730485921, 2820302411,
   3259730800, 3345764771, 3516065817, 3600352804, 4094571909, 275423344,
   430227734, 506948616, 659060556, 883997877, 958139571, 1322822218,
   1537002063, 1747873779, 1955562222, 2024104815, 2227730452, 2361852424,
   2428436474, 2756734187, 3204031479, 3329325298]

structure H8 where
  a : Nat
  b : Nat
  c : Nat
  d : Nat
  e : Nat
  f : Nat
  g : Nat
  hh : Nat
deriving Repr, DecidableEq

def initH : H8 :=
  ⟨1779033703, 3144134277, 1013904242, 2773480762,
   1359893119, 2600822924, 528734635, 1541459225⟩

/-- Combine 4 bytes big-endian into 32-bit words. -/
def toWords : List Nat → List Nat
  | a :: b :: c :: d :: rest => (a * 16777216 + b * 65536 + c * 256 + d) :: toWords rest
  | _ => []

/-- One extension step of the message schedule. -/
def scheduleStep (ws : List Nat) : List Nat :=
  ws ++ [w32 (sSig1 (ws.getD (ws.length - 2) 0) + ws.getD (ws.length - 7) 0 +
              sSig0 (ws.getD (ws.length - 15) 0) + ws.getD (ws.length - 16) 0)]

def schedule : Nat → List Nat → List Nat
  | 0, ws => ws
  | n + 1, ws => schedule n (scheduleStep ws)

def round256 (st : H8) (k w : Nat) : H8 :=
  let t1 := w32 (st.hh + bSig1 st.e + chFn st.e st.f st.g + k + w)
  let t2 := w32 (bSig0 st.a + majFn st.a st.b st.c)
  ⟨w32 (t1 + t2), st.a, st.b, st.c, w32 (st.d + t1), st.e, st.f, st.g⟩

def rounds256 (st : H8) : List (Nat × Nat) → H8
  | [] => st
  | (k, w) :: rest => rounds256 (round256 st k w) rest

def compress (st : H8) (block : List Nat) : H8 :=
  let ws := schedule 48 (toWords block)
  let s := rounds256 st (K256.zip ws)
  ⟨w32 (st.a + s.a), w32 (st.b + s.b), w32 (st.c + s.c), w32 (st.d + s.d),
   w32 (st.e + s.e), w32 (st.f + s.f), w32 (st.g + s.g), w32 (st.hh + s.hh)⟩

/-- Length field: 8 bytes big-endian. -/
def be8 (n : Nat) : List Nat :=
  [(n >>> 56) % 256, (n >>> 48) % 256, (n >>> 40) % 256, (n >>> 32) % 256,
   (n >>> 24) % 256, (n >>> 16) % 256, (n >>> 8) % 256, n % 256]

/-- SHA-256 padding: `0x80`, zeros to 56 mod 64, 64-bit message length. -/
def shaPad (msg : List Nat) : List Nat :=
  msg ++ 0x80 :: List.replicate ((64 + 55 - msg.length % 64) % 64) 0 ++
    be8 (8 * msg.length)

/-- Consume the padded byte stream block by block (`cur` is the current
partial block; the padded length is a multiple of 64). -/
def sha256Blocks (st : H8) (cur : List Nat) : List Nat → H8
  | [] => st
  | b :: rest =>
    if (cur ++ [b]).length = 64 then sha256Blocks (compress st (cur ++ [b])) [] rest
    else sha256Blocks st (cur ++ [b]) rest

def sha256 (msg : List Nat) : H8 := sha256Blocks initH [] (shaPad msg)

def hexDigitChars : List Char := "0123456789abcdef".data

def hexDigit (n : Nat) : Char := hexDigitChars.getD (n % 16) '0'

def wordHex (w : Nat) : List Char :=
  [hexDigit (w >>> 28), hexDigit (w >>> 24), hexDigit (w >>> 20),
   hexDigit (w >>> 16), hexDigit (w >>> 12), hexDigit (w >>> 8),
   hexDigit (w >>> 4), hexDigit w]

def digestWords (st : H8) : List Nat :=
  [st.a, st.b, st.c, st.d, st.e, st.f, st.g, st.hh]

/-- Model of `hashlib.sha256(bytes).hexdigest()`. -/
def sha256Hex (msg : List Nat) : Txt := ((digestWords (sha256 msg)).map wordHex).flatten

/-- UTF-8 encoding of a string (`str.encode()`). -/
def utf8Bytes : List Char → List Nat
  | [] => []
  | c :: rest =>
    (let n := c.toNat
     if n < 128 then [n]
     else if n < 2048 then [192 + n / 64, 128 + n % 64]
     else if n < 65536 then [224 + n / 4096, 128 + (n / 64) % 64, 128 + n % 64]
     else [240 + n / 262144, 128 + (n / 4096) % 64, 128 + (n / 64) % 64,
           128 + n % 64]) ++ utf8Bytes rest

/-- The f-string `"..."` hashed by `generate_chunk_id`:
`document_id`, `:`, `chunk_index`, `:`, first 100 chars of `content`. -/
def hashInput (document_id chunk_index : Nat) (content : Txt) : Txt :=
  Nat.toDigits 10 document_id ++ ':' :: Nat.toDigits 10 chunk_index ++
    ':' :: content.take 100

/-- Model of `generate_chunk_id` of `embeddings.py`: SHA-256 of the formatted
input, hex digest truncated to 32 characters. -/
def generateChunkId (document_id chunk_index : Nat) (content : Txt) : Txt :=
  (sha256Hex (utf8Bytes (hashInput document_id chunk_index content))).take 32

/-- Model of `compute_file_hash` of `ingestion.py`: SHA-256 of the file bytes
(streaming in 64 KiB blocks yields the same digest as hashing the whole
byte string, which is what is modelled here). -/
def computeFileHash (bytes : List Nat) : Txt := sha256Hex bytes

/-!
Embedding store

The Chroma collection is a list of vector records.  The distances the
index assigns to the stored vectors for a given query embedding are an
oracle parameter `dist` (the embedding model and the ANN metric are
external); everything `search_similar` does with them is modelled
exactly.
-/

structure VMeta where
  document_id : Nat
  document_title : Txt
  chunk_index : Nat
  word_count : Nat
  page_number : Int
deriving Repr, DecidableEq

structure VRec where
  id : Txt
  content : Txt
  meta : VMeta
  embedding : List Int
deriving Repr, DecidableEq

/-- Model of `collection.upsert` with a single id: overwrite if present else add. -/
def upsertVec (col : List VRec) (v : VRec) : List VRec :=
  if col.any (fun w => w.id = v.id) then col.map (fun w => if w.id = v.id then v else w)
  else col ++ [v]

structure SearchRes where
  chroma_id : Txt
  content : Txt
  metadata : VMeta
  score : ℚ
deriving Repr, DecidableEq

/-- The `where` clause built by `search_similar`: `if document_ids:` means
an empty list disables filtering, like `None`. -/
def whereMatch (docIds : Option (List Nat)) (v : VRec) : Bool :=
  match docIds with
  | none => true
  | some ids => ids.isEmpty || ids.contains v.meta.document_id

/-- Model of `collection.query`: the `n` nearest stored vectors satisfying the
`where` clause, by ascending distance (ties resolved stably). -/
def chromaQuery (col : List VRec) (dist : VRec → ℚ) (n : Nat)
    (docIds : Option (List Nat)) : List VRec :=
  ((col.filter (whereMatch docIds)).mergeSort
    (fun a b => decide (dist a ≤ dist b))).take n

/-- Model of `search_similar` of `embeddings.py`: empty collection short-circuits;
`n_results = min(top_k, count)` with `count` the whole collection's size;
score `1 - distance` filtered at the threshold; sort by score
descending. -/
def searchSimilar (col : List VRec) (dist : VRec → ℚ) (topK : Nat)
    (threshold : ℚ) (docIds : Option (List Nat)) : List SearchRes :=
  if col.length = 0 then []
  else
    let res := chromaQuery col dist (min topK col.length) docIds
    let formatted :=
      (res.map (fun v => SearchRes.mk v.id v.content v.meta (1 - dist v))).filter
        (fun r => decide (threshold ≤ r.score))
    formatted.mergeSort (fun a b => decide (b.score ≤ a.score))

/-- Model of `collection.delete(where=...)`: drop every record of the document. -/
def chromaDeleteWhere (col : List VRec) (docId : Nat) : List VRec :=
  col.filter (fun v => decide (v.meta.document_id ≠ docId))

/-- Model of `delete_document_chunks` of `embeddings.py`.  `ioFail` is the
outcome of the underlying index delete (`some e` = the index raised);
the second component is the exception propagated to the caller. -/
def deleteDocumentChunks (col : List VRec) (docId : Nat)
    (ioFail : Option String) : List VRec × Option String :=
  match ioFail with
  | none => (chromaDeleteWhere col docId, none)
  | some _ => (col, none)

/-!
Relational model and the ingestion pipeline
-/

inductive DocStatus where
  | pending
  | processing
  | ready
  | failed
deriving Repr, DecidableEq

inductive DocType where
  | pdf
  | txt
  | docx
  | md
  | unknown
deriving Repr, DecidableEq

structure Doc where
  id : Nat
  title : Txt
  filename : Txt
  file_path : Txt
  file_size : Nat
  doc_type : DocType
  status : DocStatus
  chunk_count : Nat
  error_message : Option String
  content_hash : Txt
  is_watched : Bool
deriving Repr, DecidableEq

structure ChunkRow where
  document_id : Nat
  chunk_index : Nat
  content : Txt
  word_count : Nat
  chroma_id : Option Txt
deriving Repr, DecidableEq

structure SysState where
  docs : List Doc
  chunkRows : List ChunkRow
  vecs : List VRec
  nextDocId : Nat
deriving Repr, DecidableEq

/-- Model of `Path(name).name`: the part after the last slash. -/
def basename (p : Txt) : Txt :=
  ((p.reverse.takeWhile (fun c => decide (c ≠ '/'))).reverse)

/-- Model of `Path(name).suffix`: the final extension, empty unless the last dot
sits strictly inside the name. -/
def pathSuffix (name : Txt) : Txt :=
  let j := (name.reverse.takeWhile (fun c => decide (c ≠ '.'))).length
  if j = name.length then []
  else
    let i := name.length - 1 - j
    if 0 < i ∧ i < name.length - 1 then name.drop i else []

/-- Model of `Path(name).stem`. -/
def pathStem (name : Txt) : Txt :=
  name.take (name.length - (pathSuffix name).length)

/-- Model of `get_document_type` of `ingestion.py`. -/
def getDocumentType (filename : Txt) : DocType :=
  let ext := (pathSuffix filename).map Char.toLower
  if ext = ".pdf".data then .pdf
  else if ext = ".txt".data then .txt
  else if ext = ".docx".data then .docx
  else if ext = ".md".data then .md
  else .unknown

/-- Settings of `config.py` used by the pipeline. -/
def chunkSizeDefault : Nat := 1000

def chunkOverlapDefault : Nat := 200

def retrievalTopKDefault : Nat := 5

def scoreThresholdDefault : ℚ := 3 / 10

/-- External collaborators: file system, format extractors, the Ollama
embedding client. -/
structure Env where
  fs : Txt → Option (List Nat)
  extract : Txt → DocType → Except String Txt
  embed : Txt → Except String (List Int)
  fileExists : Txt → Bool

/-- Observable pipeline effects, used to state idempotence and the
status state machine. -/
inductive Ev where
  | extractedE (docId : Nat)
  | chunkedE (docId : Nat) (n : Nat)
  | embeddedE (docId : Nat) (chunkIndex : Nat)
  | statusSetE (docId : Nat) (old new : DocStatus)
deriving Repr, DecidableEq

/-- Write back an updated document row. -/
def setDoc (st : SysState) (d : Doc) : SysState :=
  { st with docs := st.docs.map (fun x => if x.id = d.id then d else x) }

/-- Model of `embed_and_store` of `embeddings.py`: per chunk, embed via the
external client and upsert under the deterministic chunk id; the first
failure aborts the remaining chunks and propagates, keeping the upserts
already performed. -/
def embedAndStore (env : Env) (vecs : List VRec) (docId : Nat) (docTitle : Txt) :
    List Chunk → Except String (List Txt) × List VRec × List Ev
  | [] => (.ok [], vecs, [])
  | ch :: rest =>
    match env.embed ch.content with
    | .error e => (.error e, vecs, [])
    | .ok emb =>
      let cid := generateChunkId docId ch.index ch.content
      let v : VRec := ⟨cid, ch.content, ⟨docId, docTitle, ch.index, ch.word_count, -1⟩, emb⟩
      match embedAndStore env (upsertVec vecs v) docId docTitle rest with
      | (.ok ids, vecs', evs) =>
        (.ok (cid :: ids), vecs', .embeddedE docId ch.index :: evs)
      | (.error e, vecs', evs) =>
        (.error e, vecs', .embeddedE docId ch.index :: evs)

/-- Model of `zip(db_chunks, chroma_ids)`: attach ids to the new rows. -/
def attachIds : List ChunkRow → List Txt → List ChunkRow
  | rows, [] => rows
  | [], _ => []
  | r :: rows, i :: ids => { r with chroma_id := some i } :: attachIds rows ids

/-- Model of `_process_document` of `ingestion.py`: extract, chunk, persist chunk
rows (flushed before embedding), embed and store, then attach vector ids
and mark the document ready.  On failure the document row is left
untouched (the caller decides); the rows flushed and the vector upserts
performed before the failure are part of the returned state. -/
def processDocument (env : Env) (st : SysState) (doc : Doc) :
    Except String Unit × SysState × List Ev :=
  match env.extract doc.file_path doc.doc_type with
  | .error e => (.error e, st, [])
  | .ok text =>
    if strip text = [] then
      (.error "Document appears to be empty or unreadable", st, [.extractedE doc.id])
    else
      let chunks := chunkText text chunkSizeDefault chunkOverlapDefault
      if chunks = [] then
        (.error "No text chunks generated from document", st,
          [.extractedE doc.id, .chunkedE doc.id 0])
      else
        let newRows := chunks.map
          (fun ch => ChunkRow.mk doc.id ch.index ch.content ch.word_count none)
        let st1 := { st with chunkRows := st.chunkRows ++ newRows }
        match embedAndStore env st1.vecs doc.id doc.title chunks with
        | (.error e, vecs', evs) =>
          (.error e, { st1 with vecs := vecs' },
            .extractedE doc.id :: .chunkedE doc.id chunks.length :: evs)
        | (.ok ids, vecs', evs) =>
          let doc' := { doc with status := .ready, chunk_count := chunks.length }
          let stDone : SysState :=
            { docs := st1.docs, chunkRows := st.chunkRows ++ attachIds newRows ids,
              vecs := vecs', nextDocId := st1.nextDocId }
          (.ok (), setDoc stDone doc',
            .extractedE doc.id :: .chunkedE doc.id chunks.length ::
              evs ++ [.statusSetE doc.id doc.status .ready])

/-- The document record created by `ingest_file`: `processing` state,
computed hash, size and type. -/
def mkFreshDoc (st : SysState) (file_path filename : Txt) (title : Option Txt)
    (doc_type : DocType) (bytes : List Nat) (is_watched : Bool) : Doc :=
  { id := st.nextDocId,
    title := title.getD (pathStem filename),
    filename := filename,
    file_path := file_path,
    file_size := bytes.length,
    doc_type := doc_type,
    status := .processing,
    chunk_count := 0,
    error_message := none,
    content_hash := computeFileHash bytes,
    is_watched := is_watched }

/-- Commit of the freshly created document row. -/
def afterCreate (st : SysState) (doc : Doc) : SysState :=
  { st with docs := st.docs ++ [doc], nextDocId := st.nextDocId + 1 }

/-- Model of `ingest_file` of `ingestion.py` (path resolution is identity in the
model; `env.fs` is keyed by the given path). -/
def ingestFile (env : Env) (st : SysState) (file_path orig_filename : Txt)
    (title : Option Txt) (is_watched : Bool) :
    Except String Doc × SysState × List Ev :=
  let filename := basename orig_filename
  let doc_type := getDocumentType filename
  if doc_type = .unknown then (.error "Unsupported file type", st, [])
  else
    match env.fs file_path with
    | none => (.error "No such file or directory", st, [])
    | some bytes =>
      let hash := computeFileHash bytes
      match st.docs.find? (fun d => d.content_hash = hash) with
      | some existing => (.ok existing, st, [])
      | none =>
        let doc := mkFreshDoc st file_path filename title doc_type bytes is_watched
        let st1 := afterCreate st doc
        match processDocument env st1 doc with
        | (.ok _, st2, evs) =>
          (.ok ((st2.docs.find? (fun d => d.id = doc.id)).getD doc), st2, evs)
        | (.error e, st2, evs) =>
          let doc' := { doc with status := .failed, error_message := some e }
          (.error e, setDoc st2 doc', evs ++ [.statusSetE doc.id doc.status .failed])

inductive ApiErr where
  | notFound
  | fileUnavailable
  | internal (msg : String)
deriving Repr, DecidableEq

/-- Model of `reprocess_document` of `routers/documents.py`: look the document up
(any status), require its file, reset status/error/chunk_count and
commit, then rerun `_process_document`.  On failure the handler raises
HTTP 500 without committing, so the rows flushed by the failed run are
rolled back, while the reset commit and the vector-store upserts remain.
Returns the document's `chunk_count` on success. -/
def reprocessDocument (env : Env) (st : SysState) (documentId : Nat) :
    Except ApiErr Nat × SysState × List Ev :=
  match st.docs.find? (fun d => d.id = documentId) with
  | none => (.error .notFound, st, [])
  | some doc =>
    if doc.file_path = [] ∨ ¬ env.fileExists doc.file_path then
      (.error .fileUnavailable, st, [])
    else
      let doc1 : Doc :=
        { doc with status := .processing, error_message := none, chunk_count := 0 }
      let stReset := setDoc st doc1
      match processDocument env stReset doc1 with
      | (.ok _, st2, evs) =>
        (.ok (((st2.docs.find? (fun d => d.id = documentId)).getD doc1).chunk_count),
          st2, .statusSetE doc.id doc.status .processing :: evs)
      | (.error e, st2, evs) =>
        (.error (.internal e), { stReset with vecs := st2.vecs },
          .statusSetE doc.id doc.status .processing :: evs)

/-!
Retrieval
-/

structure SourceCitation where
  document_id : Nat
  document_title : Txt
  chunk_content : Txt
  relevance_score : ℚ
  page_number : Option Int
deriving Repr, DecidableEq

/-- Model of `round(x, 4)` (on exact halves Python's float rounding may differ;
no claim depends on tie behaviour). -/
def round4 (q : ℚ) : ℚ := round (q * 10000) / 10000

/-- Model of `retrieve_context` of `retrieval.py`.  `searchOutcome` is the outcome
of `search_similar` (which embeds the query and searches; both failure
modes surface here): any failure is caught and yields no citations.
Surviving results are joined with live documents; results whose document
is gone are dropped; the page-number sentinel −1 maps to `none`. -/
def retrieveContext (docs : List Doc)
    (searchOutcome : Except String (List SearchRes)) : List SourceCitation :=
  match searchOutcome with
  | .error _ => []
  | .ok results =>
    results.filterMap (fun r =>
      match docs.find? (fun d => d.id = r.metadata.document_id) with
      | none => none
      | some d =>
        some ⟨d.id, d.title, r.content, round4 r.score,
          if (0 : Int) ≤ r.metadata.page_number then some r.metadata.page_number
          else none⟩)

/-- The status-transition set asserted by the specification: only
pending→processing, processing→ready, processing→failed,
processing→processing and failed→processing. -/
def claimAllowed (o n : DocStatus) : Prop :=
  (o = .pending ∧ n = .processing) ∨ (o = .processing ∧ n = .ready) ∨
    (o = .processing ∧ n = .failed) ∨ (o = .processing ∧ n = .processing) ∨
    (o = .failed ∧ n = .processing)

/-- The transition set the code actually realizes: `reprocess_document`
resets a document of any current status to `processing` (it performs no
status check), and processing completes to `ready` or `failed`. -/
def transOK : Ev → Prop
  | .statusSetE _ o n =>
    n = .processing ∨ (o = .processing ∧ (n = .ready ∨ n = .failed))
  | _ => True

/-!
Concrete fixtures

Small closed environments and states used to evaluate the pipeline at
concrete inputs.
-/

/-- Extraction and embedding both unavailable; the file system serves the
two bytes `"hi"` for every path. -/
def envC2 : Env :=
  ⟨fun _ => some [104, 105], fun _ _ => .error "x", fun _ => .error "x",
    fun _ => false⟩

/-- Extraction succeeds, the embedding backend is down. -/
def envC4 : Env :=
  ⟨fun _ => some [104, 105], fun _ _ => .ok "Hello there.".data,
    fun _ => .error "backend down", fun _ => true⟩

/-- Everything succeeds: one-sentence extraction, constant embedding. -/
def envC5 : Env :=
  ⟨fun _ => some [104], fun _ _ => .ok "New text.".data, fun _ => .ok [1],
    fun _ => true⟩

/-- A document whose earlier run failed after persisting one chunk row. -/
def docC5 : Doc :=
  ⟨1, "t".data, "f.txt".data, "/f".data, 1, .txt, .failed, 0,
    some "embed down", "h".data, false⟩

def stC5 : SysState := ⟨[docC5], [⟨1, 0, "Old text.".data, 2, none⟩], [], 2⟩

instance {ε α : Type _} [DecidableEq ε] [DecidableEq α] :
    DecidableEq (Except ε α) := fun a b =>
  match a, b with
  | .ok x, .ok y =>
    if h : x = y then .isTrue (congrArg Except.ok h)
    else .isFalse (fun hh => h (Except.ok.inj hh))
  | .error x, .error y =>
    if h : x = y then .isTrue (congrArg Except.error h)
    else .isFalse (fun hh => h (Except.error.inj hh))
  | .ok _, .error _ => .isFalse (fun hh => Except.noConfusion hh)
  | .error _, .ok _ => .isFalse (fun hh => Except.noConfusion hh)

/-! ### THEOREM REGION -/

theorem ovlRev_append_eq (k : Nat) :
    ∀ (l : List Txt) (acc : Nat), ∃ r, ovlRev k l acc ++ r = l := by
  intro l
  induction l with
  | nil => exact fun _ => ⟨[], rfl⟩
  | cons s rest ih =>
    intro acc
    by_cases h : acc + s.length ≤ k
    · obtain ⟨r, hr⟩ := ih (acc + s.length)
      exact ⟨r, by simp [ovlRev, h, hr]⟩
    · exact ⟨s :: rest, by simp [ovlRev, h]⟩

theorem overlapSuffix_append_eq (k : Nat) (cur : List Txt) :
    ∃ pre, pre ++ overlapSuffix k cur = cur := by
  obtain ⟨r, hr⟩ := ovlRev_append_eq k cur.reverse 0
  refine ⟨r.reverse, ?_⟩
  have := congrArg List.reverse hr
  simpa [overlapSuffix] using this

theorem mem_overlapSuffix {k : Nat} {cur : List Txt} {t : Txt}
    (h : t ∈ overlapSuffix k cur) : t ∈ cur := by
  obtain ⟨pre, hp⟩ := overlapSuffix_append_eq k cur
  rw [← hp]
  exact List.mem_append_right pre h

theorem chunkLoop_eq_render (size overlap : Nat) :
    ∀ (sents ov fresh : List Txt) (len idx : Nat),
      chunkLoop size overlap sents (ov ++ fresh) len idx
        = renderItems size overlap (itemLoop size overlap sents ov fresh len) idx := by
  intro sents
  induction sents with
  | nil =>
    intro ov fresh len idx
    by_cases h : ov ++ fresh = []
    · simp [chunkLoop, itemLoop, h, renderItems]
    · simp [chunkLoop, itemLoop, h, renderItems, itemChunks, itemSize]
  | cons s rest ih =>
    intro ov fresh len idx
    by_cases h1 : s.length > size
    · by_cases h : ov ++ fresh = []
      · simp only [chunkLoop, itemLoop, if_pos h1, if_pos h, List.nil_append,
          renderItems, itemChunks, itemSize]
        simpa using ih [] [] 0 (idx + (hardPieces s size (size - overlap)).length)
      · simp only [chunkLoop, itemLoop, if_pos h1, if_neg h, List.cons_append,
          List.singleton_append, renderItems, itemChunks, itemSize]
        simpa using ih [] [] 0 (idx + 1 + (hardPieces s size (size - overlap)).length)
    · by_cases h2 : len + s.length > size ∧ ov ++ fresh ≠ []
      · simp only [chunkLoop, itemLoop, if_neg h1, if_pos h2, renderItems,
          itemChunks, itemSize]
        simpa using
          ih (overlapSuffix overlap (ov ++ fresh)) [s]
            (sumLens (overlapSuffix overlap (ov ++ fresh)) + s.length) (idx + 1)
      · simp only [chunkLoop, itemLoop, if_neg h1, if_neg h2]
        rw [List.append_assoc]
        exact ih ov (fresh ++ [s]) (len + s.length) idx

theorem itemLoop_sents (size overlap : Nat) :
    ∀ (sents ov fresh : List Txt) (len : Nat),
      (itemLoop size overlap sents ov fresh len).flatMap itemSents
        = fresh ++ sents := by
  intro sents
  induction sents with
  | nil =>
    intro ov fresh len
    by_cases h : ov ++ fresh = []
    · have : fresh = [] := (List.append_eq_nil.mp h).2
      simp [itemLoop, h, this, itemSents]
    · simp [itemLoop, h, itemSents]
  | cons s rest ih =>
    intro ov fresh len
    by_cases h1 : s.length > size
    · by_cases h : ov ++ fresh = []
      · have : fresh = [] := (List.append_eq_nil.mp h).2
        simp [itemLoop, if_pos h1, h, itemSents, ih [] [] 0, this]
      · simp [itemLoop, if_pos h1, h, itemSents, ih [] [] 0]
    · by_cases h2 : len + s.length > size ∧ ov ++ fresh ≠ []
      · simp only [itemLoop, if_neg h1, if_pos h2]
        simp [itemSents, ih (overlapSuffix overlap (ov ++ fresh)) [s]]
      · simp only [itemLoop, if_neg h1, if_neg h2]
        simp [ih ov (fresh ++ [s])]

theorem itemLoop_ovOK (size overlap : Nat) :
    ∀ (sents ov fresh : List Txt) (len : Nat) (prev : Option (List Txt)),
      (ov = [] ∨ ∃ L pre, prev = some L ∧ pre ++ ov = L) →
      OvOK prev (itemLoop size overlap sents ov fresh len) := by
  intro sents
  induction sents with
  | nil =>
    intro ov fresh len prev hov
    by_cases h : ov ++ fresh = []
    · simp [itemLoop, h, OvOK]
    · simp only [itemLoop, if_neg h]
      exact ⟨hov, trivial⟩
  | cons s rest ih =>
    intro ov fresh len prev hov
    by_cases h1 : s.length > size
    · by_cases h : ov ++ fresh = []
      · simp only [itemLoop, if_pos h1, if_pos h, List.nil_append]
        exact ih [] [] 0 none (Or.inl rfl)
      · simp only [itemLoop, if_pos h1, if_neg h, List.cons_append,
          List.nil_append, List.singleton_append]
        exact ⟨hov, ih [] [] 0 none (Or.inl rfl)⟩
    · by_cases h2 : len + s.length > size ∧ ov ++ fresh ≠ []
      · simp only [itemLoop, if_neg h1, if_pos h2]
        refine ⟨hov, ih _ _ _ _ ?_⟩
        obtain ⟨pre, hp⟩ := overlapSuffix_append_eq overlap (ov ++ fresh)
        exact Or.inr ⟨ov ++ fresh, pre, rfl, hp⟩
      · simp only [itemLoop, if_neg h1, if_neg h2]
        exact ih ov (fresh ++ [s]) (len + s.length) prev hov

theorem itemLoop_fits (size overlap : Nat) :
    ∀ (sents ov fresh : List Txt) (len : Nat),
      (∀ s ∈ ov ++ fresh, s.length ≤ size) →
      ∀ it ∈ itemLoop size overlap sents ov fresh len, itemFits size it := by
  intro sents
  induction sents with
  | nil =>
    intro ov fresh len hcur it hit
    by_cases h : ov ++ fresh = []
    · simp [itemLoop, h] at hit
    · simp only [itemLoop, if_neg h, List.mem_singleton] at hit
      subst hit
      exact hcur
  | cons s rest ih =>
    intro ov fresh len hcur it hit
    by_cases h1 : s.length > size
    · by_cases h : ov ++ fresh = []
      · simp only [itemLoop, if_pos h1, if_pos h, List.nil_append,
          List.mem_cons] at hit
        rcases hit with rfl | hit
        · exact h1
        · exact ih [] [] 0 (by simp) it hit
      · simp only [itemLoop, if_neg h, if_pos h1, List.cons_append,
          List.nil_append, List.singleton_append, List.mem_cons] at hit
        rcases hit with rfl | rfl | hit
        · exact hcur
        · exact h1
        · exact ih [] [] 0 (by simp) it hit
    · by_cases h2 : len + s.length > size ∧ ov ++ fresh ≠ []
      · simp only [itemLoop, if_neg h1, if_pos h2, List.mem_cons] at hit
        rcases hit with rfl | hit
        · exact hcur
        · refine ih _ _ _ ?_ it hit
          intro u hu
          rcases List.mem_append.mp hu with hu | hu
          · exact hcur u (mem_overlapSuffix hu)
          · rcases List.mem_singleton.mp hu with rfl
            omega
      · simp only [itemLoop, if_neg h1, if_neg h2] at hit
        refine ih ov (fresh ++ [s]) (len + s.length) ?_ it hit
        intro u hu
        rcases List.mem_append.mp hu with hu | hu
        · exact hcur u (List.mem_append_left _ hu)
        · rcases List.mem_append.mp hu with hu | hu
          · exact hcur u (List.mem_append_right _ hu)
          · rcases List.mem_singleton.mp hu with rfl
            omega

theorem isSpc_not_punct {c : Char} (h : isSpc c = true) : isPunct c = false := by
  simp only [isSpc, Bool.or_eq_true, decide_eq_true_eq] at h
  rcases h with ⟨⟨⟨⟨h | h⟩ | h⟩ | h⟩ | h⟩ | h <;> subst h <;> decide

theorem strip_eq_nil_all_spc {l : Txt} (h : strip l = []) :
    ∀ c ∈ l, isSpc c = true := by
  unfold strip at h
  rw [List.reverse_eq_nil_iff, List.dropWhile_eq_nil_iff] at h
  have hdrop : ∀ c ∈ l.dropWhile isSpc, isSpc c = true := by
    intro c hc
    exact h c (by simpa using hc)
  intro c hc
  rw [← List.takeWhile_append_dropWhile (p := isSpc) (l := l)] at hc
  rcases List.mem_append.mp hc with hc | hc
  · exact List.mem_takeWhile_imp hc
  · exact hdrop c hc

theorem sentAux_no_punct :
    ∀ (t : List Char) (cur : List Char), endsPunct cur = false →
      (∀ c ∈ t, isPunct c = false) → sentAux false cur t = [cur.reverse ++ t] := by
  intro t
  induction t with
  | nil => intro cur _ _; simp [sentAux]
  | cons c rest ih =>
    intro cur hcur hnp
    have hc : isPunct c = false := hnp c (List.mem_cons_self c rest)
    have hrec := ih (c :: cur) (by simp [endsPunct, hc])
      (fun u hu => hnp u (List.mem_cons_of_mem c hu))
    simp [sentAux, hcur, hrec]

theorem splitIntoSentences_of_strip_nil {t : Txt} (h : strip t = []) :
    splitIntoSentences t = [] := by
  have hall := strip_eq_nil_all_spc h
  have hnp : ∀ c ∈ t, isPunct c = false := fun c hc => isSpc_not_punct (hall c hc)
  unfold splitIntoSentences
  rw [sentAux_no_punct t [] rfl hnp]
  simp [h]

/-- Claim C1. (amended).  For `chunk_overlap < chunk_size`, `chunk_text` is the
rendering of an item structure in which: the per-item fresh sentence lists
concatenate exactly to the sentence list of `clean_text(T)` (no sentence
omitted, original order, with each oversized sentence kept whole as a hard
item that renders to its non-whitespace fixed-size windows); every
non-empty overlap prefix of a buffer chunk is a suffix of the sentence
list of the chunk flushed immediately before it; and buffer chunks hold
only sentences that fit `chunk_size`.  (Exact character-level recovery can
fail for oversized sentences whose hard-split windows are entirely
whitespace; see the counterexample.) -/
theorem C1_chunkText_coverage (T : Txt) (size overlap : Nat)
    (h : overlap < size) :
    chunkText T size overlap
        = renderItems size overlap (chunkItems T size overlap) 0
    ∧ (chunkItems T size overlap).flatMap itemSents
        = splitIntoSentences (cleanText T)
    ∧ OvOK none (chunkItems T size overlap)
    ∧ ∀ it ∈ chunkItems T size overlap, itemFits size it := by
  clear h
  refine ⟨?_, by simpa using itemLoop_sents size overlap _ [] [] 0,
    itemLoop_ovOK size overlap _ [] [] 0 none (Or.inl rfl),
    itemLoop_fits size overlap _ [] [] 0 (by simp)⟩
  unfold chunkText chunkItems
  by_cases he : strip (cleanText T) = []
  · rw [splitIntoSentences_of_strip_nil he]
    simp [he, itemLoop, renderItems]
  · simp only [if_neg he]
    simpa using chunkLoop_eq_render size overlap (splitIntoSentences (cleanText T)) [] [] 0 0

/-- Witness for C1: the amended coverage statement holds at a concrete
text and a concrete valid configuration. -/
theorem C1_chunkText_coverage_witness :
    (2 : Nat) < 10 ∧
      (chunkText "Hi there. Bye now.".data 10 2
          = renderItems 10 2 (chunkItems "Hi there. Bye now.".data 10 2) 0
      ∧ (chunkItems "Hi there. Bye now.".data 10 2).flatMap itemSents
          = splitIntoSentences (cleanText "Hi there. Bye now.".data)
      ∧ OvOK none (chunkItems "Hi there. Bye now.".data 10 2)
      ∧ ∀ it ∈ chunkItems "Hi there. Bye now.".data 10 2, itemFits 10 it) :=
  ⟨by decide, C1_chunkText_coverage "Hi there. Bye now.".data 10 2 (by decide)⟩

/-- Counterexample to C1 as stated: for the text `"a\n\nb"` (one sentence,
no sentence-ending punctuation) with `chunk_size = 1 > chunk_overlap = 0`,
the hard-split windows holding the two newline characters are dropped as
whitespace-only, so the sentence cannot be recovered from the emitted
chunks (it is not even a subsequence of their concatenation). -/
theorem C1_counterexample :
    (0 : Nat) < 1 ∧
      ¬ (∀ s ∈ splitIntoSentences (cleanText ['a', '\n', '\n', 'b']),
          s.Sublist (((chunkText ['a', '\n', '\n', 'b'] 1 0).map
            Chunk.content).flatten)) := by
  constructor
  · decide
  · decide

theorem wordHex_length (w : Nat) : (wordHex w).length = 8 := rfl

theorem sha256Hex_length (m : List Nat) : (sha256Hex m).length = 64 := by
  simp [sha256Hex, digestWords, wordHex_length]

theorem hexDigit_mem (n : Nat) : hexDigit n ∈ hexDigitChars := by
  unfold hexDigit
  have hlen : n % 16 < hexDigitChars.length := by
    have : n % 16 < 16 := Nat.mod_lt _ (by decide)
    simpa [hexDigitChars] using this
  rw [List.getD_eq_getElem _ _ hlen]
  exact List.getElem_mem hlen

theorem mem_sha256Hex_hex {m : List Nat} {c : Char} (h : c ∈ sha256Hex m) :
    c ∈ hexDigitChars := by
  unfold sha256Hex at h
  rw [List.mem_flatten] at h
  obtain ⟨l, hl, hc⟩ := h
  rw [List.mem_map] at hl
  obtain ⟨w, _, rfl⟩ := hl
  simp only [wordHex, List.mem_cons, List.not_mem_nil, or_false] at hc
  rcases hc with rfl | rfl | rfl | rfl | rfl | rfl | rfl | rfl <;> exact hexDigit_mem _

theorem generateChunkId_take100 (doc idx : Nat) (c c' : Txt)
    (h : c.take 100 = c'.take 100) :
    generateChunkId doc idx c = generateChunkId doc idx c' := by
  unfold generateChunkId hashInput
  rw [h]

/-- Claim C6. (amended).  `generate_chunk_id` is a pure function producing a
32-character hex id, and it depends only on `document_id`, `chunk_index`
and the first 100 characters of `content`: contents agreeing on their
first 100 characters always receive the identical id (so a change to
`content` past position 100 never changes the id). -/
theorem C6_generateChunkId_spec (doc idx : Nat) (c c' : Txt)
    (h : c.take 100 = c'.take 100) :
    (generateChunkId doc idx c).length = 32
    ∧ (∀ x ∈ generateChunkId doc idx c, x ∈ hexDigitChars)
    ∧ generateChunkId doc idx c = generateChunkId doc idx c' := by
  refine ⟨?_, ?_, generateChunkId_take100 doc idx c c' h⟩
  · unfold generateChunkId
    rw [List.length_take, sha256Hex_length]
    decide
  · intro x hx
    exact mem_sha256Hex_hex (List.mem_of_mem_take hx)

/-- Witness for C6 at concrete inputs. -/
theorem C6_generateChunkId_spec_witness :
    ("abc".data.take 100 = "abc".data.take 100)
    ∧ ((generateChunkId 1 0 "abc".data).length = 32
      ∧ (∀ x ∈ generateChunkId 1 0 "abc".data, x ∈ hexDigitChars)
      ∧ generateChunkId 1 0 "abc".data = generateChunkId 1 0 "abc".data) :=
  ⟨rfl, C6_generateChunkId_spec 1 0 "abc".data "abc".data rfl⟩

/-- Counterexample to C6 as stated: two contents that differ (at
position 100) receive the identical chunk id, because only the first 100
characters of the content are hashed — changing an input does not always
change the id. -/
theorem C6_counterexample :
    List.replicate 100 'a' ++ ['x'] ≠ List.replicate 100 'a' ++ ['y']
    ∧ generateChunkId 7 0 (List.replicate 100 'a' ++ ['x'])
        = generateChunkId 7 0 (List.replicate 100 'a' ++ ['y']) := by
  refine ⟨by decide, generateChunkId_take100 7 0 _ _ ?_⟩
  decide

/-- Claim C3..  Every result of `search_similar` scores at least the
threshold and arises as `1 − distance` of a stored vector; results are
sorted by score descending; at most `top_k` results and at most as many
as there are indexed vectors; the empty index yields the empty sequence
without error. -/
theorem C3_searchSimilar_spec (col : List VRec) (dist : VRec → ℚ) (topK : Nat)
    (threshold : ℚ) (docIds : Option (List Nat)) :
    (∀ r ∈ searchSimilar col dist topK threshold docIds, threshold ≤ r.score)
    ∧ (∀ r ∈ searchSimilar col dist topK threshold docIds,
        ∃ v ∈ col, r = ⟨v.id, v.content, v.meta, 1 - dist v⟩)
    ∧ (searchSimilar col dist topK threshold docIds).Pairwise
        (fun a b => b.score ≤ a.score)
    ∧ (searchSimilar col dist topK threshold docIds).length ≤ topK
    ∧ (searchSimilar col dist topK threshold docIds).length ≤ col.length
    ∧ (col = [] → searchSimilar col dist topK threshold docIds = []) := by
  by_cases hc : col.length = 0
  · simp [searchSimilar, hc]
  · have hmem : ∀ r ∈ searchSimilar col dist topK threshold docIds,
        r ∈ (chromaQuery col dist (min topK col.length) docIds).map
          (fun v => SearchRes.mk v.id v.content v.meta (1 - dist v)) ∧
          threshold ≤ r.score := by
      intro r hr
      simp only [searchSimilar, if_neg hc] at hr
      rw [List.mem_mergeSort] at hr
      exact ⟨List.mem_of_mem_filter hr, by simpa using List.of_mem_filter hr⟩
    refine ⟨fun r hr => (hmem r hr).2, ?_, ?_, ?_, ?_, fun h => by simp [h] at hc⟩
    · intro r hr
      obtain ⟨hin, -⟩ := hmem r hr
      rw [List.mem_map] at hin
      obtain ⟨v, hv, rfl⟩ := hin
      have : v ∈ col.filter (whereMatch docIds) := by
        have := List.mem_of_mem_take hv
        simpa using List.mem_mergeSort.mp this
      exact ⟨v, List.mem_of_mem_filter this, rfl⟩
    · have hs := @List.sorted_mergeSort SearchRes
        (fun a b : SearchRes => decide (b.score ≤ a.score))
        (fun a b c hab hbc => by
          simp only [decide_eq_true_eq] at hab hbc ⊢
          exact le_trans hbc hab)
        (fun a b => by
          simp only [Bool.or_eq_true, decide_eq_true_eq]
          exact le_total b.score a.score)
        (((chromaQuery col dist (min topK col.length) docIds).map
          (fun v => SearchRes.mk v.id v.content v.meta (1 - dist v))).filter
            (fun r => decide (threshold ≤ r.score)))
      simp only [searchSimilar, if_neg hc]
      exact hs.imp (fun h => by simpa using h)
    · simp only [searchSimilar, if_neg hc]
      calc _ = _ := List.length_mergeSort ..
        _ ≤ ((chromaQuery col dist (min topK col.length) docIds).map
              (fun v => SearchRes.mk v.id v.content v.meta (1 - dist v))).length :=
          List.length_filter_le _ _
        _ ≤ min topK col.length := by
          rw [List.length_map]
          simpa [chromaQuery] using List.length_take_le _ _
        _ ≤ topK := Nat.min_le_left _ _
    · simp only [searchSimilar, if_neg hc]
      calc _ = _ := List.length_mergeSort ..
        _ ≤ ((chromaQuery col dist (min topK col.length) docIds).map
              (fun v => SearchRes.mk v.id v.content v.meta (1 - dist v))).length :=
          List.length_filter_le _ _
        _ ≤ min topK col.length := by
          rw [List.length_map]
          simpa [chromaQuery] using List.length_take_le _ _
        _ ≤ col.length := Nat.min_le_right _ _

/-- Claim C8..  If the query-embedding call or the vector search raises
(`searchOutcome` is an error), `retrieve_context` returns the empty
citation sequence instead of propagating the error. -/
theorem C8_retrieveContext_error (docs : List Doc) (e : String) :
    retrieveContext docs (.error e) = [] := rfl

/-- Claim C9. (amended).  `delete_document_chunks` removes exactly the
vector records of the given document when the index delete succeeds, and
matching nothing is not an error; but when the underlying index delete
fails, the failure is caught and logged and the caller is NOT notified —
the function always returns without propagating an error. -/
theorem C9_deleteDocumentChunks_spec (col : List VRec) (docId : Nat)
    (ioFail : Option String) :
    (deleteDocumentChunks col docId none).1
        = col.filter (fun v => decide (v.meta.document_id ≠ docId))
    ∧ (∀ v ∈ (deleteDocumentChunks col docId none).1, v.meta.document_id ≠ docId)
    ∧ (deleteDocumentChunks col docId ioFail).2 = none := by
  refine ⟨rfl, ?_, ?_⟩
  · intro v hv
    simpa using List.of_mem_filter hv
  · cases ioFail <;> rfl

/-- Counterexample to C9 as stated: a failing index delete (here: the
index raises `"index unavailable"`) is swallowed — the collection is left
unchanged and no error reaches the caller, contradicting "reported
upward". -/
theorem C9_counterexample :
    (deleteDocumentChunks [] 5 (some "index unavailable")).2 = none
    ∧ ¬ ((deleteDocumentChunks [] 5 (some "index unavailable")).2 ≠ none) :=
  ⟨rfl, fun h => h rfl⟩

theorem replaceId_eq_self (l : List Doc) (i : Nat) (y : Doc)
    (h : ∀ d ∈ l, d.id ≠ i) :
    l.map (fun x => if x.id = i then y else x) = l := by
  have := List.map_congr_left (l := l) (f := fun x => if x.id = i then y else x)
    (g := id) (fun a ha => by simp [h a ha])
  simpa using this

theorem embedAndStore_events (env : Env) (docId : Nat) (docTitle : Txt) :
    ∀ (chunks : List Chunk) (vecs : List VRec),
      ∀ ev ∈ (embedAndStore env vecs docId docTitle chunks).2.2, transOK ev := by
  intro chunks
  induction chunks with
  | nil => intro vecs ev hev; simp [embedAndStore] at hev
  | cons ch rest ih =>
    intro vecs ev hev
    simp only [embedAndStore] at hev
    split at hev
    · simp at hev
    · split at hev
      case _ emb _ ids vecs' evs heq =>
        rcases List.mem_cons.mp hev with rfl | hev
        · trivial
        · exact ih _ ev (by rw [heq]; exact hev)
      case _ emb _ e vecs' evs heq =>
        rcases List.mem_cons.mp hev with rfl | hev
        · trivial
        · exact ih _ ev (by rw [heq]; exact hev)

theorem processDocument_events (env : Env) (st : SysState) (doc : Doc)
    (h : doc.status = .processing) :
    ∀ ev ∈ (processDocument env st doc).2.2, transOK ev := by
  intro ev hev
  simp only [processDocument] at hev
  split at hev
  · simp at hev
  · split at hev
    · rcases List.mem_singleton.mp hev with rfl
      trivial
    · split at hev
      · rcases List.mem_cons.mp hev with rfl | hev
        · trivial
        · rcases List.mem_singleton.mp hev with rfl
          trivial
      · split at hev
        case _ text _ _ e vecs' evs heq =>
          rcases List.mem_cons.mp hev with rfl | hev
          · trivial
          rcases List.mem_cons.mp hev with rfl | hev
          · trivial
          exact embedAndStore_events env doc.id doc.title _ _ ev
            (by rw [heq]; exact hev)
        case _ text _ _ ids vecs' evs heq =>
          rcases List.mem_cons.mp hev with rfl | hev
          · trivial
          rcases List.mem_cons.mp hev with rfl | hev
          · trivial
          rcases List.mem_append.mp hev with hev | hev
          · exact embedAndStore_events env doc.id doc.title _ _ ev
              (by rw [heq]; exact hev)
          · rcases List.mem_singleton.mp hev with rfl
            exact Or.inr ⟨h, Or.inl rfl⟩

/-- Claim C7. (amended).  Every status change performed by `ingest_file`
(including `_process_document`) and by `reprocess_document` is either a
reset of the document's current status - whatever it is, `ready`
included, since `reprocess_document` performs no status check - to
`processing`, or a completion of `processing` to `ready` or `failed`. -/
theorem C7_status_machine (env : Env) (st : SysState) (p f : Txt)
    (t : Option Txt) (w : Bool) (i : Nat) :
    (∀ ev ∈ (ingestFile env st p f t w).2.2, transOK ev)
    ∧ (∀ ev ∈ (reprocessDocument env st i).2.2, transOK ev) := by
  constructor
  · intro ev hev
    simp only [ingestFile] at hev
    split at hev
    · simp at hev
    · split at hev
      · simp at hev
      · split at hev
        · simp at hev
        · split at hev
          case _ u st2 evs heq =>
            exact processDocument_events env _ _ rfl ev (by rw [heq]; exact hev)
          case _ e st2 evs heq =>
            rcases List.mem_append.mp hev with hev | hev
            · exact processDocument_events env _ _ rfl ev (by rw [heq]; exact hev)
            · rcases List.mem_singleton.mp hev with rfl
              exact Or.inr ⟨rfl, Or.inr rfl⟩
  · intro ev hev
    simp only [reprocessDocument] at hev
    split at hev
    · simp at hev
    · split at hev
      · simp at hev
      · split at hev
        case _ u st2 evs heq =>
          rcases List.mem_cons.mp hev with rfl | hev
          · exact Or.inl rfl
          · exact processDocument_events env _ _ rfl ev (by rw [heq]; exact hev)
        case _ e st2 evs heq =>
          rcases List.mem_cons.mp hev with rfl | hev
          · exact Or.inl rfl
          · exact processDocument_events env _ _ rfl ev (by rw [heq]; exact hev)

theorem setDoc_docs (st : SysState) (d : Doc) :
    (setDoc st d).docs = st.docs.map (fun x => if x.id = d.id then d else x) := rfl

theorem processDocument_docs (env : Env) (st : SysState) (doc : Doc)
    (L : List Doc) (hdocs : st.docs = L ++ [doc])
    (hids : ∀ d ∈ L, d.id ≠ doc.id) :
    ∃ d', (processDocument env st doc).2.1.docs = L ++ [d']
      ∧ d'.content_hash = doc.content_hash ∧ d'.id = doc.id := by
  simp only [processDocument]
  split
  · exact ⟨doc, hdocs, rfl, rfl⟩
  · split
    · exact ⟨doc, hdocs, rfl, rfl⟩
    · split
      · exact ⟨doc, hdocs, rfl, rfl⟩
      · split
        · exact ⟨doc, hdocs, rfl, rfl⟩
        · rename_i x1 text hx h1 h2 x2 ids vecs' evs heq
          refine ⟨{ doc with status := DocStatus.ready, chunk_count := (chunkText text chunkSizeDefault chunkOverlapDefault).length }, ?_, rfl, rfl⟩
          rw [setDoc_docs]
          dsimp only
          rw [hdocs, List.map_append,
            replaceId_eq_self L _ _ (fun d hd => by simpa using hids d hd)]
          simp

/-- After a fresh ingest (no prior document with this content hash, and
fresh next id), the document table is the old table plus exactly one new
row carrying the computed content hash. -/
theorem ingestFile_fresh (env : Env) (st : SysState) (p f : Txt)
    (t : Option Txt) (w : Bool) (B : List Nat)
    (ht : getDocumentType (basename f) ≠ .unknown)
    (hf : env.fs p = some B)
    (hno : ∀ d ∈ st.docs, d.content_hash ≠ computeFileHash B)
    (hid : ∀ d ∈ st.docs, d.id ≠ st.nextDocId) :
    ∃ d, (ingestFile env st p f t w).2.1.docs = st.docs ++ [d]
      ∧ d.content_hash = computeFileHash B
      ∧ d.id = st.nextDocId := by
  have hfind : st.docs.find? (fun x => x.content_hash = computeFileHash B) = none :=
    List.find?_eq_none.mpr (fun x hx => by simpa using hno x hx)
  simp only [ingestFile, if_neg ht, hf, hfind]
  obtain ⟨d', hd', hdh, hdi⟩ := processDocument_docs env
    (afterCreate st (mkFreshDoc st p (basename f) t (getDocumentType (basename f)) B w))
    (mkFreshDoc st p (basename f) t (getDocumentType (basename f)) B w)
    st.docs rfl (fun d hd => by simpa [mkFreshDoc] using hid d hd)
  rcases hr : processDocument env
      (afterCreate st (mkFreshDoc st p (basename f) t (getDocumentType (basename f)) B w))
      (mkFreshDoc st p (basename f) t (getDocumentType (basename f)) B w)
    with ⟨res, st2, evs⟩
  rw [hr] at hd'
  cases res with
  | ok u =>
    refine ⟨d', ?_, by simpa [mkFreshDoc] using hdh, by simpa [mkFreshDoc] using hdi⟩
    simp only [hr]
    exact hd'
  | error e =>
    refine ⟨{ mkFreshDoc st p (basename f) t (getDocumentType (basename f)) B w with status := DocStatus.failed, error_message := some e }, ?_, by simp [mkFreshDoc], by simp [mkFreshDoc]⟩
    simp only [hr]
    rw [setDoc_docs]
    dsimp only
    rw [hd', List.map_append,
      replaceId_eq_self st.docs _ _
        (fun d hd => by simpa [mkFreshDoc] using hid d hd)]
    simp [hdi]

theorem ingestFile_dedup (env : Env) (st : SysState) (p f : Txt)
    (t : Option Txt) (w : Bool) (B : List Nat) (d : Doc)
    (ht : getDocumentType (basename f) ≠ .unknown)
    (hf : env.fs p = some B)
    (hfind : st.docs.find? (fun x => x.content_hash = computeFileHash B) = some d) :
    ingestFile env st p f t w = (.ok d, st, []) := by
  simp only [ingestFile, if_neg ht, hf, hfind]

/-- Claim C10..  When `ingest_file` finds an existing document with the same
content hash — whatever its status, `failed` included — it returns that
record exactly as stored, changes nothing, and performs no processing
effects. -/
theorem C10_dedup_returns_existing (env : Env) (st : SysState) (p f : Txt)
    (t : Option Txt) (w : Bool) (B : List Nat) (d : Doc)
    (ht : getDocumentType (basename f) ≠ .unknown)
    (hf : env.fs p = some B)
    (hfind : st.docs.find? (fun x => x.content_hash = computeFileHash B) = some d) :
    ingestFile env st p f t w = (.ok d, st, []) :=
  ingestFile_dedup env st p f t w B d ht hf hfind

/-- Witness for C10: a stored `failed` document is returned as-is. -/
theorem C10_dedup_returns_existing_witness :
    getDocumentType (basename "b.md".data) ≠ .unknown
    ∧ (ingestFile
        ⟨fun _ => some [104, 105], fun _ _ => .error "e", fun _ => .error "e",
          fun _ => false⟩
        ⟨[⟨3, "t".data, "a.txt".data, "/p".data, 2, .txt, .failed, 0, some "x",
            computeFileHash [104, 105], false⟩], [], [], 4⟩
        "/q".data "b.md".data none false)
      = (.ok ⟨3, "t".data, "a.txt".data, "/p".data, 2, .txt, .failed, 0, some "x",
            computeFileHash [104, 105], false⟩,
         ⟨[⟨3, "t".data, "a.txt".data, "/p".data, 2, .txt, .failed, 0, some "x",
            computeFileHash [104, 105], false⟩], [], [], 4⟩, []) :=
  ⟨by decide,
    C10_dedup_returns_existing _ _ _ _ _ _ _ _ (by decide) rfl
      (List.find?_cons_of_pos _ (decide_eq_true rfl))⟩

/-- Claim C2..  Ingesting the same bytes twice (any two supported filenames,
any two paths serving the same bytes): afterwards the document table of
the first call's final state holds exactly one row with that content
hash, and the second call returns precisely that stored record with the
state unchanged and no processing effects (no extraction, chunking,
embedding or status events). -/
theorem C2_ingest_idempotent (env : Env) (st0 : SysState) (p1 p2 f1 f2 : Txt)
    (t1 t2 : Option Txt) (w1 w2 : Bool) (B : List Nat)
    (ht1 : getDocumentType (basename f1) ≠ .unknown)
    (ht2 : getDocumentType (basename f2) ≠ .unknown)
    (hf1 : env.fs p1 = some B) (hf2 : env.fs p2 = some B)
    (hno : ∀ d ∈ st0.docs, d.content_hash ≠ computeFileHash B)
    (hid : ∀ d ∈ st0.docs, d.id ≠ st0.nextDocId) :
    ∃ d,
      ingestFile env (ingestFile env st0 p1 f1 t1 w1).2.1 p2 f2 t2 w2
        = (.ok d, (ingestFile env st0 p1 f1 t1 w1).2.1, [])
      ∧ (ingestFile env st0 p1 f1 t1 w1).2.1.docs.filter
          (fun x => x.content_hash = computeFileHash B) = [d] := by
  obtain ⟨d, hdocs, hdh, hdi⟩ := ingestFile_fresh env st0 p1 f1 t1 w1 B ht1 hf1 hno hid
  have hfind2 : (ingestFile env st0 p1 f1 t1 w1).2.1.docs.find?
      (fun x => x.content_hash = computeFileHash B) = some d := by
    rw [hdocs, List.find?_append,
      List.find?_eq_none.mpr (fun x hx => by simpa using hno x hx)]
    simpa using List.find?_cons_of_pos (p := fun x : Doc =>
      decide (x.content_hash = computeFileHash B)) [] (decide_eq_true hdh)
  refine ⟨d, ingestFile_dedup env _ p2 f2 t2 w2 B d ht2 hf2 hfind2, ?_⟩
  rw [hdocs, List.filter_append,
    List.filter_eq_nil_iff.mpr (fun x hx => by simpa using hno x hx)]
  simp [hdh]

/-- Witness for C2 at a concrete run: two byte-identical files under the
names `a.txt` and `b.md` on an empty store (the first ingest fails at
extraction, which changes nothing about dedup). -/
theorem C2_ingest_idempotent_witness :
    (∀ d ∈ (⟨[], [], [], 1⟩ : SysState).docs,
        d.content_hash ≠ computeFileHash [104, 105])
    ∧ ∃ d,
        ingestFile envC2 (ingestFile envC2 ⟨[], [], [], 1⟩ "/a".data "a.txt".data
              none false).2.1 "/b".data "b.md".data none false
          = (.ok d, (ingestFile envC2 ⟨[], [], [], 1⟩ "/a".data "a.txt".data
              none false).2.1, [])
        ∧ (ingestFile envC2 ⟨[], [], [], 1⟩ "/a".data "a.txt".data
            none false).2.1.docs.filter
              (fun x => x.content_hash = computeFileHash [104, 105]) = [d] :=
  ⟨by simp,
    C2_ingest_idempotent envC2 ⟨[], [], [], 1⟩ "/a".data "/b".data
      "a.txt".data "b.md".data none none false false [104, 105]
      (by decide) (by decide) rfl rfl (by simp) (by simp)⟩

theorem setDoc_chunkRows (st : SysState) (d : Doc) :
    (setDoc st d).chunkRows = st.chunkRows := rfl

theorem processDocument_error_spec (env : Env) (st : SysState) (doc : Doc)
    (e : String) :
    (processDocument env st doc).1 = .error e →
      (processDocument env st doc).2.1.docs = st.docs
      ∧ ((processDocument env st doc).2.1.chunkRows = st.chunkRows
        ∨ ∃ text, env.extract doc.file_path doc.doc_type = .ok text
            ∧ ¬ chunkText text chunkSizeDefault chunkOverlapDefault = []
            ∧ (processDocument env st doc).2.1.chunkRows
              = st.chunkRows
                ++ (chunkText text chunkSizeDefault chunkOverlapDefault).map
                    (fun ch => ChunkRow.mk doc.id ch.index ch.content
                      ch.word_count none)) := by
  simp only [processDocument]
  split
  · exact fun _ => ⟨rfl, Or.inl rfl⟩
  · split
    · exact fun _ => ⟨rfl, Or.inl rfl⟩
    · split
      · exact fun _ => ⟨rfl, Or.inl rfl⟩
      · split
        case _ x1 text hx h1 h2 x2 err vecs' evs heq =>
          exact fun _ => ⟨rfl, Or.inr ⟨text, hx, h2, rfl⟩⟩
        case _ x1 text hx h1 h2 x2 ids vecs' evs heq =>
          intro h
          exact absurd h (by simp)

/-- Claim C4 (amended).  If ANY step of processing fails — extraction
error, empty extracted text, zero chunks, or an embedding failure — then
`ingest_file` re-raises that error; afterwards the document row exists in
`failed` state with the error message recorded; the chunk rows the run
flushed before the failure remain stored, not rolled back (none when the
failure precedes the persist step, all of them when embedding fails,
since rows are persisted before embedding starts); but the document's
`chunk_count` remains 0: it is NOT updated to the number of persisted
chunk rows. -/
theorem C4_ingest_failure (env : Env) (st0 : SysState) (p f : Txt)
    (t : Option Txt) (w : Bool) (B : List Nat) (e : String)
    (ht : getDocumentType (basename f) ≠ .unknown)
    (hf : env.fs p = some B)
    (hno : ∀ d ∈ st0.docs, d.content_hash ≠ computeFileHash B)
    (hid : ∀ d ∈ st0.docs, d.id ≠ st0.nextDocId)
    (hfail : (processDocument env
        (afterCreate st0 (mkFreshDoc st0 p (basename f) t
          (getDocumentType (basename f)) B w))
        (mkFreshDoc st0 p (basename f) t (getDocumentType (basename f)) B w)).1
      = .error e) :
    (ingestFile env st0 p f t w).1 = .error e
    ∧ (∃ d, (ingestFile env st0 p f t w).2.1.docs = st0.docs ++ [d]
        ∧ d.status = .failed ∧ d.error_message = some e
        ∧ d.chunk_count = 0 ∧ d.content_hash = computeFileHash B)
    ∧ (ingestFile env st0 p f t w).2.1.chunkRows
        = (processDocument env
            (afterCreate st0 (mkFreshDoc st0 p (basename f) t
              (getDocumentType (basename f)) B w))
            (mkFreshDoc st0 p (basename f) t
              (getDocumentType (basename f)) B w)).2.1.chunkRows
    ∧ ((ingestFile env st0 p f t w).2.1.chunkRows = st0.chunkRows
      ∨ ∃ text, env.extract p (getDocumentType (basename f)) = .ok text
          ∧ ¬ chunkText text chunkSizeDefault chunkOverlapDefault = []
          ∧ (ingestFile env st0 p f t w).2.1.chunkRows
            = st0.chunkRows
              ++ (chunkText text chunkSizeDefault chunkOverlapDefault).map
                  (fun ch => ChunkRow.mk st0.nextDocId ch.index ch.content
                    ch.word_count none)) := by
  have hfind : st0.docs.find? (fun x => x.content_hash = computeFileHash B) = none :=
    List.find?_eq_none.mpr (fun x hx => by simpa using hno x hx)
  obtain ⟨hdocs2, hrows2⟩ := processDocument_error_spec env
    (afterCreate st0 (mkFreshDoc st0 p (basename f) t
      (getDocumentType (basename f)) B w))
    (mkFreshDoc st0 p (basename f) t (getDocumentType (basename f)) B w) e hfail
  simp only [ingestFile, if_neg ht, hf, hfind]
  rcases hr : processDocument env
      (afterCreate st0 (mkFreshDoc st0 p (basename f) t
        (getDocumentType (basename f)) B w))
      (mkFreshDoc st0 p (basename f) t (getDocumentType (basename f)) B w)
    with ⟨res, st2, evs⟩
  rw [hr] at hfail hdocs2 hrows2
  replace hfail : res = Except.error e := hfail
  subst hfail
  replace hdocs2 : st2.docs
      = st0.docs ++ [mkFreshDoc st0 p (basename f) t
          (getDocumentType (basename f)) B w] := hdocs2
  simp only [hr]
  refine ⟨?_, ⟨{ mkFreshDoc st0 p (basename f) t (getDocumentType (basename f)) B w with status := DocStatus.failed, error_message := some e }, ?_, rfl, rfl, rfl, rfl⟩, ?_, ?_⟩
  · first
    | rfl
    | trivial
  · rw [setDoc_docs, hdocs2, List.map_append,
      replaceId_eq_self st0.docs _ _
        (fun d hd => by simpa [mkFreshDoc] using hid d hd)]
    simp [mkFreshDoc]
  · first
    | trivial
    | rw [setDoc_chunkRows]
  · rcases hrows2 with hrows2 | ⟨text, hx, hc, hrows2⟩
    · left
      rw [setDoc_chunkRows]
      exact hrows2
    · right
      refine ⟨text, by simpa [mkFreshDoc] using hx, hc, ?_⟩
      rw [setDoc_chunkRows]
      exact hrows2

/-- Witness for C4: concrete run where extraction succeeds with one
sentence, one chunk row is flushed, and the embedding backend is down
(an instance of the processing-failure hypothesis). -/
theorem C4_ingest_failure_witness :
    ((processDocument envC4
        (afterCreate ⟨[], [], [], 1⟩ (mkFreshDoc ⟨[], [], [], 1⟩ "/u/f".data
          (basename "f.txt".data) none
          (getDocumentType (basename "f.txt".data)) [104, 105] false))
        (mkFreshDoc ⟨[], [], [], 1⟩ "/u/f".data (basename "f.txt".data) none
          (getDocumentType (basename "f.txt".data)) [104, 105] false)).1
      = .error "backend down")
    ∧ ((ingestFile envC4 ⟨[], [], [], 1⟩ "/u/f".data "f.txt".data none false).1
        = .error "backend down"
      ∧ (∃ d, (ingestFile envC4 ⟨[], [], [], 1⟩ "/u/f".data "f.txt".data
            none false).2.1.docs = [] ++ [d]
          ∧ d.status = .failed ∧ d.error_message = some "backend down"
          ∧ d.chunk_count = 0 ∧ d.content_hash = computeFileHash [104, 105])
      ∧ (ingestFile envC4 ⟨[], [], [], 1⟩ "/u/f".data "f.txt".data
          none false).2.1.chunkRows
          = (processDocument envC4
              (afterCreate ⟨[], [], [], 1⟩ (mkFreshDoc ⟨[], [], [], 1⟩
                "/u/f".data (basename "f.txt".data) none
                (getDocumentType (basename "f.txt".data)) [104, 105] false))
              (mkFreshDoc ⟨[], [], [], 1⟩ "/u/f".data (basename "f.txt".data)
                none (getDocumentType (basename "f.txt".data)) [104, 105]
                false)).2.1.chunkRows
      ∧ ((ingestFile envC4 ⟨[], [], [], 1⟩ "/u/f".data "f.txt".data
            none false).2.1.chunkRows = []
        ∨ ∃ text, envC4.extract "/u/f".data
              (getDocumentType (basename "f.txt".data)) = .ok text
            ∧ ¬ chunkText text chunkSizeDefault chunkOverlapDefault = []
            ∧ (ingestFile envC4 ⟨[], [], [], 1⟩ "/u/f".data "f.txt".data
                none false).2.1.chunkRows
              = []
                ++ (chunkText text chunkSizeDefault chunkOverlapDefault).map
                    (fun ch => ChunkRow.mk 1 ch.index ch.content
                      ch.word_count none))) :=
  ⟨by decide,
    C4_ingest_failure envC4 ⟨[], [], [], 1⟩ "/u/f".data "f.txt".data none false
      [104, 105] "backend down" (by decide) rfl (by simp) (by simp)
      (by decide)⟩

/-- Counterexample to C4 as stated: in the concrete failed run one chunk
row was persisted for the document, yet its `chunk_count` is 0, so
`chunk_count` does not reflect the chunks persisted before the failure. -/
theorem C4_counterexample :
    (ingestFile envC4 ⟨[], [], [], 1⟩ "/u/f".data "f.txt".data
        none false).2.1.docs.map Doc.chunk_count = [0]
    ∧ ((ingestFile envC4 ⟨[], [], [], 1⟩ "/u/f".data "f.txt".data
        none false).2.1.chunkRows.filter
          (fun c => c.document_id = 1)).length = 1
    ∧ (0 : Nat) ≠ 1 := by
  refine ⟨by decide, by decide, by decide⟩

theorem pieceChunks_indices :
    ∀ (ps : List Txt) (idx : Nat),
      (pieceChunks ps idx).map Chunk.index = List.range' idx ps.length := by
  intro ps
  induction ps with
  | nil => intro idx; simp [pieceChunks]
  | cons p rest ih =>
    intro idx
    simp [pieceChunks, ih (idx + 1), List.range'_succ]

theorem itemChunks_indices (size overlap : Nat) (it : CItem) (idx : Nat) :
    (itemChunks size overlap it idx).map Chunk.index
      = List.range' idx (itemSize size overlap it) := by
  cases it with
  | normal ov fresh => simp [itemChunks, itemSize, mkChunk, List.range'_succ]
  | hard s => simp [itemChunks, itemSize, pieceChunks_indices]

theorem renderItems_indices (size overlap : Nat) :
    ∀ (items : List CItem) (idx : Nat),
      (renderItems size overlap items idx).map Chunk.index
        = List.range' idx ((items.map (itemSize size overlap)).sum) := by
  intro items
  induction items with
  | nil => intro idx; simp [renderItems]
  | cons it rest ih =>
    intro idx
    rw [renderItems, List.map_append, itemChunks_indices, ih,
      List.range'_append_1]
    simp [Nat.add_comm]

/-- Within a single `chunk_text` run, the emitted chunk indices are
exactly the dense sequence `0..N-1` in emission order (the per-run half
of the chunk-index invariant). -/
theorem chunkText_indices_dense (T : Txt) (size overlap : Nat) :
    (chunkText T size overlap).map Chunk.index
      = List.range (chunkText T size overlap).length := by
  by_cases he : strip (cleanText T) = []
  · simp [chunkText, he]
  · have hrender : chunkText T size overlap
        = renderItems size overlap
            (itemLoop size overlap (splitIntoSentences (cleanText T)) [] [] 0) 0 := by
      unfold chunkText
      simp only [if_neg he]
      simpa using
        chunkLoop_eq_render size overlap (splitIntoSentences (cleanText T)) [] [] 0 0
    have hidx := renderItems_indices size overlap
      (itemLoop size overlap (splitIntoSentences (cleanText T)) [] [] 0) 0
    have hlen : (chunkText T size overlap).length
        = ((itemLoop size overlap (splitIntoSentences (cleanText T)) [] [] 0).map
            (itemSize size overlap)).sum := by
      rw [← List.length_map (chunkText T size overlap) Chunk.index, hrender, hidx]
      exact List.length_range' ..
    rw [hrender, hidx, ← hrender, hlen, List.range_eq_range']

/-- Claim C5. (evaluation at the failing input).  A document whose earlier
run persisted one chunk row (index 0) is reprocessed successfully;
afterwards its chunk rows are the old row plus the new run's row — chunk
indices `[0, 0]`, not the dense `0..N-1` sequence, and not just the rows
of the new run. -/
theorem C5_reprocess_keeps_old_rows :
    (reprocessDocument envC5 stC5 1).1 = .ok 1
    ∧ ((reprocessDocument envC5 stC5 1).2.1.chunkRows.filter
        (fun c => c.document_id = 1)).map ChunkRow.chunk_index = [0, 0]
    ∧ ¬ (((reprocessDocument envC5 stC5 1).2.1.chunkRows.filter
          (fun c => c.document_id = 1)).map ChunkRow.chunk_index
        = List.range (((reprocessDocument envC5 stC5 1).2.1.chunkRows.filter
            (fun c => c.document_id = 1)).length)) := by
  refine ⟨by decide, by decide, by decide⟩

/-- Counterexample to C7 as stated: `reprocess_document` on a document
whose status is `ready` (no status check guards the endpoint) performs
the transition ready→processing, which is not among the transitions the
claim allows. -/
theorem C7_counterexample :
    (reprocessDocument
        ⟨fun _ => none, fun _ _ => .error "boom", fun _ => .error "down",
          fun _ => true⟩
        ⟨[⟨1, "t".data, "t.txt".data, "/f".data, 3, .txt, .ready, 1, none,
            "h".data, false⟩], [], [], 2⟩ 1).2.2
      = [.statusSetE 1 .ready .processing]
    ∧ ¬ claimAllowed .ready .processing := by
  constructor
  · rfl
  · intro h
    simp [claimAllowed] at h

end LocalMemory
